import Mathlib

/-!
# Verification of the GitHub embedded-systems repository crawler

A shallow embedding of the crawler's core logic in Lean 4:

* `filter_embedded_systems_repos` (crawler.py) — keyword scoring/exclusion filter;
* `search_repos` / `_make_request` pagination and rate-limit state (crawler.py);
* `analyze_repo` backend selection and fallback, and the Ollama backend's
  retry loop and response parsing (analyzer.py);
* the `full_name` deduplication step of `run_crawler` (utils.py).

Python strings are modelled as `List Char`; `str.lower()` is modelled by
`Char.toLower` on every character (the ASCII fragment, which is all the
crawler's keyword lists use).  A Python dict field that may be absent is an
`Option`; `description` may additionally be present-but-null, hence
`Option (Option Str)`.
-/

/-- Python strings, modelled as lists of characters. -/
abbrev Str := List Char

/-- Coerce a Lean string literal to the `Str` model. -/
def strLit (s : String) : Str := s.data

/-- Model of Python `str.lower()` (ASCII fragment). -/
def lowerStr (s : Str) : Str := s.map Char.toLower

/-- Model of Python `needle in hay` for strings: contiguous-substring test. -/
def isSubstrOf (needle : Str) : Str → Bool
  | [] => needle.isEmpty
  | c :: rest => needle.isPrefixOf (c :: rest) || isSubstrOf needle rest

/-- Model of Python `' '.join(parts)`. -/
def joinSpaces : List Str → Str
  | [] => []
  | [t] => t
  | t :: ts => t ++ ' ' :: joinSpaces ts

/-- Model of Python `str.strip()` (whitespace on both ends). -/
def stripStr (s : Str) : Str :=
  ((s.dropWhile Char.isWhitespace).reverse.dropWhile Char.isWhitespace).reverse

/-- Decimal rendering of a natural number, as in Python `f"{n}"`. -/
def natStr (n : Nat) : Str := (toString n).data

/-- A repository record as handled by the crawler: a JSON dict whose fields
may each be absent (`none`).  `description` may also be present and null
(`some none`).  `keyword_match_count` / `matching_keywords` are the two keys
the filter adds to its `repo.copy()`. -/
structure Repo where
  name : Option Str
  full_name : Option Str
  description : Option (Option Str)
  language : Option Str
  topics : Option (List Str)
  keyword_match_count : Option Nat
  matching_keywords : Option (List Str)
deriving DecidableEq, Repr

/-- `repo.get("name", "").lower()` in `filter_embedded_systems_repos`. -/
def nameText (r : Repo) : Str := lowerStr (r.name.getD [])

/-- `repo.get("description", "").lower() if repo.get("description") else ""`:
an absent, null or empty description yields the empty string (Python
truthiness). -/
def descText (r : Repo) : Str :=
  match r.description with
  | some (some s) => if s = [] then [] else lowerStr s
  | _ => []

/-- `[t.lower() for t in repo.get("topics", [])]`. -/
def topicsText (r : Repo) : List Str := (r.topics.getD []).map lowerStr

/-- `all_text = f"{name} {description} {' '.join(topics)}"`. -/
def allText (r : Repo) : Str :=
  nameText r ++ ' ' :: descText r ++ ' ' :: joinSpaces (topicsText r)

/-- The exclusion loop of `filter_embedded_systems_repos`: some exclude
keyword, lower-cased, occurs as a substring of `all_text`. -/
def shouldExclude (exclude_keywords : List Str) (r : Repo) : Bool :=
  exclude_keywords.any fun keyword => isSubstrOf (lowerStr keyword) (allText r)

/-- The per-keyword match condition of the inclusion loop:
`keyword_lower in name or keyword_lower in description or keyword_lower in topics`
(the last is exact list membership, since `topics` is a Python list). -/
def keyword_matched (r : Repo) (keyword : Str) : Bool :=
  let keyword_lower := lowerStr keyword
  isSubstrOf keyword_lower (nameText r) || isSubstrOf keyword_lower (descText r) ||
    (topicsText r).contains keyword_lower

/-- The inclusion loop of `filter_embedded_systems_repos`: fold over
`required_keywords`, incrementing `match_count` and appending to `matches`
for each matched keyword. -/
def countMatches (required_keywords : List Str) (r : Repo) : Nat × List Str :=
  required_keywords.foldl
    (fun acc keyword =>
      if keyword_matched r keyword then (acc.1 + 1, acc.2 ++ [keyword]) else acc)
    (0, [])

/-- The loop body of `filter_embedded_systems_repos` for one repo: `none` when
the repo is excluded or matches no required keyword, otherwise the
`repo.copy()` with `keyword_match_count` and `matching_keywords` set. -/
def scoreRepo (required_keywords exclude_keywords : List Str) (r : Repo) : Option Repo :=
  if shouldExclude exclude_keywords r then none
  else
    let mc := countMatches required_keywords r
    if 0 < mc.1 then
      some { r with keyword_match_count := some mc.1, matching_keywords := some mc.2 }
    else none

/-- `GitHubCrawler.filter_embedded_systems_repos`: score every repo, keep the
survivors, and stable-sort by `keyword_match_count` descending
(`filtered_repos.sort(key=..., reverse=True)`; Python's sort is stable, and a
stable insertion sort computes the same permutation). -/
def filter_embedded_systems_repos (repos : List Repo)
    (required_keywords exclude_keywords : List Str) : List Repo :=
  (repos.filterMap (scoreRepo required_keywords exclude_keywords)).insertionSort
    fun a b => b.keyword_match_count.getD 0 ≤ a.keyword_match_count.getD 0

/-- A repo with the two score keys removed: two repos are "the same item" at
the filter boundary when they agree after stripping the keys the filter
itself adds. -/
def stripScore (r : Repo) : Repo :=
  { r with keyword_match_count := none, matching_keywords := none }

/-- Defaulting of the filter's optional inputs: an absent name becomes the
empty string, an absent-or-null description becomes a present empty string,
absent topics become the empty list.  Score fields are untouched. -/
def normalizeRepo (r : Repo) : Repo :=
  { r with
    name := some (r.name.getD [])
    description :=
      match r.description with
      | some (some s) => some (some s)
      | _ => some (some [])
    topics := some (r.topics.getD []) }

/-! ## Rate-limit bookkeeping (`GitHubCrawler._make_request`, crawler.py) -/

/-- The two rate-limit counters held on the `GitHubCrawler` instance. -/
structure RateLimitState where
  rate_limit_remaining : Nat
  rate_limit_reset : Nat
deriving DecidableEq, Repr

/-- The two rate-limit response headers; `none` models an absent header.  A
present header carries its parsed integer value (`int(...)` of the digit
string GitHub sends). -/
structure RateHeaders where
  x_rate_limit_remaining : Option Nat
  x_rate_limit_reset : Option Nat
deriving DecidableEq, Repr

/-- The after-call update in `_make_request`:
`self.rate_limit_remaining = int(response.headers.get("X-RateLimit-Remaining", 0))`
(an absent header defaults to `0`), and
`reset_time = response.headers.get("X-RateLimit-Reset"); if reset_time: self.rate_limit_reset = int(reset_time)`
(an absent header leaves the stored value unchanged). -/
def update_rate_limit (st : RateLimitState) (h : RateHeaders) : RateLimitState :=
  RateLimitState.mk
    (h.x_rate_limit_remaining.getD 0)
    (match h.x_rate_limit_reset with
     | some reset_time => reset_time
     | none => st.rate_limit_reset)

/-! ## Pagination (`GitHubCrawler.search_repos`, crawler.py)

`_make_request` returns the parsed JSON or `None` (on a request exception, a
rate-limited 403 or any other non-200 status).  For the pagination loop only
three shapes of outcome matter, modelled by `PageResp`: `failure` is a `None`
return, `noItems` a JSON without an `"items"` key (or a falsy JSON), and
`items l` a JSON carrying the item list `l`.  The items themselves are opaque
to the loop, hence the type parameter. -/

/-- Outcome of `_make_request` for one page, as seen by `search_repos`. -/
inductive PageResp (α : Type) where
  | failure : PageResp α
  | noItems : PageResp α
  | items : List α → PageResp α
deriving DecidableEq, Repr

/-- The `while page <= max_pages` loop of `search_repos`.  `fuel` is the
number of page numbers still allowed (`max_pages - page + 1`); `resp` maps a
page number to the outcome of its request; `all_repos` is the accumulator. -/
def search_repos_go {α : Type} (resp : Nat → PageResp α) :
    Nat → Nat → List α → List α
  | _, 0, all_repos => all_repos
  | page, fuel + 1, all_repos =>
    match resp page with
    | .failure => all_repos
    | .noItems => all_repos
    | .items l =>
      if l.length = 0 then all_repos
      else if l.length < 100 then all_repos ++ l
      else search_repos_go resp (page + 1) fuel (all_repos ++ l)

/-- `GitHubCrawler.search_repos`: pages are requested from 1 while
`page <= max_pages`. -/
def search_repos {α : Type} (resp : Nat → PageResp α) (max_pages : Nat) : List α :=
  search_repos_go resp 1 max_pages []

/-- The item list of a page, empty for a failed or item-less response. -/
def pageItems {α : Type} (resp : Nat → PageResp α) (i : Nat) : List α :=
  match resp i with
  | .items l => l
  | _ => []

/-- A page response that makes the loop continue: an item list of full page
size (`per_page = 100`) or more. -/
def isFullPage {α : Type} (resp : Nat → PageResp α) (i : Nat) : Bool :=
  match resp i with
  | .items l => 100 ≤ l.length
  | _ => false

/-- Concatenation, in page order, of the items of `count` pages starting at
page `start`. -/
def concatPages {α : Type} (resp : Nat → PageResp α) (start count : Nat) : List α :=
  ((List.range' start count).map (pageItems resp)).flatten

/-- Concrete page oracle used to witness the pagination theorem: page 1 is a
full page of 100 items, page 2 has a single item, page 3 would fail. -/
def c8PageOracle : Nat → PageResp Nat := fun i =>
  if i = 1 then PageResp.items (List.replicate 100 0)
  else if i = 2 then PageResp.items [5] else PageResp.failure

/-! ## Deduplication (`run_crawler`, utils.py)

```python
unique_repos = {}
for repo in all_repos:
    full_name = repo.get("full_name")
    if full_name not in unique_repos:
        unique_repos[full_name] = repo
unique_repos_list = list(unique_repos.values())
```

A Python dict preserves insertion order, so `unique_repos_list` is the list
of first occurrences of each `full_name` key, in arrival order.  `seen`
carries the keys inserted so far (an absent `full_name` is the key `None`,
i.e. `none`). -/

/-- The dict-filling loop above, with `seen` the set of keys already in
`unique_repos`. -/
def dedup_go (seen : List (Option Str)) : List Repo → List Repo
  | [] => []
  | repo :: rest =>
    if repo.full_name ∈ seen then dedup_go seen rest
    else repo :: dedup_go (repo.full_name :: seen) rest

/-- The deduplication step of `run_crawler`: keep the first occurrence of
each `full_name`. -/
def dedup_repos (all_repos : List Repo) : List Repo := dedup_go [] all_repos

/-! ## The analyzer (`RepoAnalyzer`, analyzer.py) -/

/-- The backend-availability flags set in `RepoAnalyzer.__init__`. -/
structure AnalyzerState where
  use_ollama : Bool
  ollama_available : Bool
  gemini_available : Bool
deriving DecidableEq, Repr

/-- `RepoAnalyzer.analyze_repo`: route to Ollama if requested and available,
else to Gemini if available, else the keyword-heuristic fallback.  The two
backends involve network I/O and are passed as oracles mapping the repo to
the string they would return. -/
def analyze_repo (st : AnalyzerState) (ollamaResult geminiResult : Repo → Str)
    (repo : Repo) : Str :=
  if st.use_ollama && st.ollama_available then ollamaResult repo
  else if st.gemini_available then geminiResult repo
  else if 2 ≤ repo.keyword_match_count.getD 0 then
    strLit "Yes (fallback - multiple keywords matched)"
  else strLit "Yes (fallback - pre-filtered repo)"

/-- Python `text.split(sep, 1)[1]` for a non-empty `sep`: the part after the
first occurrence of `sep`, or `none` (an `IndexError`) when `sep` does not
occur. -/
def splitAfterFirst (sep : Str) : Str → Option Str
  | [] => none
  | c :: rest =>
    if sep.isPrefixOf (c :: rest) then some ((c :: rest).drop sep.length)
    else splitAfterFirst sep rest

/-- The languages privileged by the Ollama override:
`['c', 'c++', 'assembly']`. -/
def privilegedLanguages : List Str := [strLit "c", strLit "c++", strLit "assembly"]

/-- The response-parsing block of `analyze_repo_with_ollama` for a 200
response (`answer_text = response_json.get("response", "").strip()` has
already been applied by the caller; here `answer_text` is that stripped
text).  `Except.error ()` models a Python exception escaping the block (the
`IndexError` of `split(..., 1)[1]` when the separator is absent), which the
enclosing retry loop treats as a failed attempt. -/
def parse_ollama_response (answer_text : Str) (repo : Repo) : Except Unit Str :=
  if (strLit "yes").isPrefixOf (lowerStr answer_text) then
    match
      (if isSubstrOf (strLit "Yes -") answer_text then
        splitAfterFirst (strLit "Yes -") answer_text
      else splitAfterFirst (strLit "Yes") answer_text) with
    | none => .error ()
    | some explanation =>
      .ok (strLit "Yes - " ++ (stripStr explanation).take 95)
  else if (strLit "no").isPrefixOf (lowerStr answer_text) then
    match
      (if isSubstrOf (strLit "No -") answer_text then
        splitAfterFirst (strLit "No -") answer_text
      else splitAfterFirst (strLit "No") answer_text) with
    | none => .error ()
    | some explanation =>
      let language := lowerStr (repo.language.getD [])
      let keyword_count := repo.keyword_match_count.getD 0
      if language ∈ privilegedLanguages && 1 ≤ keyword_count then
        .ok (strLit "Yes - Contains " ++ language
          ++ strLit " code and matches embedded keywords")
      else if 2 ≤ keyword_count then
        .ok (strLit "Yes - Matches multiple embedded keywords ("
          ++ natStr keyword_count ++ strLit ")")
      else .ok (strLit "No - " ++ (stripStr explanation).take 95)
  else if isSubstrOf (strLit "suitable") (lowerStr answer_text)
      && !isSubstrOf (strLit "not") ((lowerStr answer_text).take 30) then
    .ok (strLit "Yes - " ++ answer_text.take 95)
  else if isSubstrOf (strLit "not suitable") (lowerStr answer_text)
      || isSubstrOf (strLit "unsuitable") (lowerStr answer_text) then
    let language := lowerStr (repo.language.getD [])
    let keyword_count := repo.keyword_match_count.getD 0
    if language ∈ privilegedLanguages && 1 ≤ keyword_count then
      .ok (strLit "Yes - Contains " ++ language
        ++ strLit " code and matches embedded keywords")
    else if 2 ≤ keyword_count then
      .ok (strLit "Yes - Matches multiple embedded keywords ("
        ++ natStr keyword_count ++ strLit ")")
    else .ok (strLit "No - " ++ answer_text.take 95)
  else .ok (strLit "Yes - Repository appears relevant to embedded systems")

/-- The condition under which `parse_ollama_response` classifies a response
as a "No": either it starts with "no" (case-insensitive), or it reaches the
secondary heuristic and finds "not suitable"/"unsuitable". -/
def parses_as_no (answer_text : Str) : Bool :=
  (strLit "no").isPrefixOf (lowerStr answer_text)
  || (!(strLit "yes").isPrefixOf (lowerStr answer_text)
      && !(isSubstrOf (strLit "suitable") (lowerStr answer_text)
           && !isSubstrOf (strLit "not") ((lowerStr answer_text).take 30))
      && (isSubstrOf (strLit "not suitable") (lowerStr answer_text)
          || isSubstrOf (strLit "unsuitable") (lowerStr answer_text)))

/-- The override condition of `analyze_repo_with_ollama` (lines 246 and
261): privileged language with at least one keyword match, or at least two
keyword matches. -/
def ollama_override (repo : Repo) : Bool :=
  (lowerStr (repo.language.getD []) ∈ privilegedLanguages
    && 1 ≤ repo.keyword_match_count.getD 0)
  || 2 ≤ repo.keyword_match_count.getD 0

/-- Outcome of one `requests.post` attempt in the Ollama retry loop:
an exception, or a response with a status code and (for a 200) the stripped
`"response"` field. -/
inductive OAttempt where
  | exn : OAttempt
  | status : Nat → Str → OAttempt
deriving DecidableEq, Repr

/-- Result of the `for attempt in range(max_retries)` loop of
`analyze_repo_with_ollama`: a `return`ed string, a `raise e` on the final
attempt, or falling through the loop without returning (which makes the
Python function return `None`). -/
inductive OllamaLoopResult where
  | returned : Str → OllamaLoopResult
  | raised : OllamaLoopResult
  | fellThrough : OllamaLoopResult
deriving DecidableEq, Repr

/-- The retry loop of `analyze_repo_with_ollama`, fed the outcomes of the
successive attempts (`max_retries = 3`, so the list has three entries; the
list being empty models the loop having exhausted its range).  On a non-200
status code the final attempt only prints and the loop falls through; on an
exception — including a parse `IndexError` — the final attempt re-raises. -/
def ollama_retry_go (repo : Repo) : List OAttempt → OllamaLoopResult
  | [] => .fellThrough
  | attempt :: rest =>
    match attempt with
    | .exn => if rest.isEmpty then .raised else ollama_retry_go repo rest
    | .status code body =>
      if code = 200 then
        match parse_ollama_response body repo with
        | .ok s => .returned s
        | .error _ => if rest.isEmpty then .raised else ollama_retry_go repo rest
      else
        if rest.isEmpty then .fellThrough else ollama_retry_go repo rest

/-- The fallback of `analyze_repo_with_ollama`'s outer `except` block
(reached when the retry loop re-raises). -/
def ollama_outer_fallback (repo : Repo) : Str :=
  let language := lowerStr (repo.language.getD [])
  let matchCount := repo.keyword_match_count.getD 0
  if language ∈ privilegedLanguages then
    strLit "Yes (fallback - contains " ++ language
      ++ strLit " code for embedded systems)"
  else if 1 ≤ matchCount then
    strLit "Yes (fallback - matches " ++ natStr matchCount
      ++ strLit " embedded keywords)"
  else strLit "Yes (fallback - pre-filtered repo)"

/-- `RepoAnalyzer.analyze_repo_with_ollama`, over the three attempt outcomes:
`none` models the Python function returning `None` (reaching the end of its
body without a `return`), `some s` a returned string. -/
def analyze_repo_with_ollama (st : AnalyzerState) (repo : Repo)
    (attempts : List OAttempt) : Option Str :=
  if !st.ollama_available then some (strLit "N/A (Ollama service not available)")
  else
    match ollama_retry_go repo attempts with
    | .returned s => some s
    | .raised => some (ollama_outer_fallback repo)
    | .fellThrough => none

/-! ## Lemmas about the keyword filter -/

theorem countMatches_foldl (r : Repo) (req : List Str) (n : Nat) (ks : List Str) :
    req.foldl
      (fun acc keyword =>
        if keyword_matched r keyword then (acc.1 + 1, acc.2 ++ [keyword]) else acc)
      (n, ks)
    = (n + (req.filter (keyword_matched r)).length,
       ks ++ req.filter (keyword_matched r)) := by
  induction req generalizing n ks with
  | nil => simp
  | cons k rest ih =>
    by_cases h : keyword_matched r k
    · simp [h, ih, List.filter_cons]
      omega
    · simp [h, ih, List.filter_cons]

theorem countMatches_eq (req : List Str) (r : Repo) :
    countMatches req r
      = ((req.filter (keyword_matched r)).length, req.filter (keyword_matched r)) := by
  unfold countMatches
  rw [countMatches_foldl]
  simp

theorem scoreRepo_eq_some {req exc : List Str} {r s : Repo}
    (h : scoreRepo req exc r = some s) :
    shouldExclude exc r = false
    ∧ 0 < (req.filter (keyword_matched r)).length
    ∧ s = { r with
             keyword_match_count := some (req.filter (keyword_matched r)).length,
             matching_keywords := some (req.filter (keyword_matched r)) } := by
  simp only [scoreRepo, countMatches_eq] at h
  split_ifs at h with h1 h2
  exact ⟨Bool.eq_false_iff.mpr h1, h2, (Option.some_inj.mp h).symm⟩

theorem mem_filter_embedded {repos : List Repo} {req exc : List Str} {s : Repo} :
    s ∈ filter_embedded_systems_repos repos req exc
      ↔ ∃ r, r ∈ repos ∧ scoreRepo req exc r = some s := by
  unfold filter_embedded_systems_repos
  rw [List.mem_insertionSort, List.mem_filterMap]

theorem keyword_matched_update (r : Repo) (c : Option Nat) (k : Option (List Str)) :
    keyword_matched { r with keyword_match_count := c, matching_keywords := k }
      = keyword_matched r := rfl

theorem shouldExclude_update (exc : List Str) (r : Repo) (c : Option Nat)
    (k : Option (List Str)) :
    shouldExclude exc { r with keyword_match_count := c, matching_keywords := k }
      = shouldExclude exc r := rfl

/-- C1: every item emitted by `filter_embedded_systems_repos` carries
`keyword_match_count = some n` and `matching_keywords = some ks` with
`n = ks.length` and `n ≥ 1`; `ks` is exactly the sublist of the required
keywords that match the item, in required-list order; and `n` counts the
required keywords matching the item, so a zero-match item is never
emitted. -/
theorem filter_scored_invariant (repos : List Repo)
    (required_keywords exclude_keywords : List Str) (s : Repo)
    (hs : s ∈ filter_embedded_systems_repos repos required_keywords exclude_keywords) :
    ∃ n ks, s.keyword_match_count = some n ∧ s.matching_keywords = some ks
      ∧ n = ks.length ∧ 1 ≤ n
      ∧ ks = required_keywords.filter (keyword_matched s)
      ∧ n = required_keywords.countP (keyword_matched s) := by
  obtain ⟨r, _hr, hsc⟩ := mem_filter_embedded.mp hs
  obtain ⟨_hex, hpos, hs_eq⟩ := scoreRepo_eq_some hsc
  subst hs_eq
  refine ⟨(required_keywords.filter (keyword_matched r)).length,
    required_keywords.filter (keyword_matched r), rfl, rfl, rfl, hpos, rfl, ?_⟩
  rw [List.countP_eq_length_filter]
  rfl

theorem filter_scored_invariant_witness :
    ∃ s, s ∈ filter_embedded_systems_repos
        [Repo.mk (some (strLit "stm32-hal")) none (some (some (strLit "HAL for STM32")))
          none (some [strLit "stm32", strLit "hal"]) none none]
        [strLit "STM32", strLit "HAL"] [strLit "course"]
      ∧ ∃ n ks, s.keyword_match_count = some n ∧ s.matching_keywords = some ks
        ∧ n = ks.length ∧ 1 ≤ n
        ∧ ks = [strLit "STM32", strLit "HAL"].filter (keyword_matched s)
        ∧ n = [strLit "STM32", strLit "HAL"].countP (keyword_matched s) := by
  have hmem : (Repo.mk (some (strLit "stm32-hal")) none
        (some (some (strLit "HAL for STM32"))) none
        (some [strLit "stm32", strLit "hal"]) (some 2)
        (some [strLit "STM32", strLit "HAL"]))
      ∈ filter_embedded_systems_repos
        [Repo.mk (some (strLit "stm32-hal")) none (some (some (strLit "HAL for STM32")))
          none (some [strLit "stm32", strLit "hal"]) none none]
        [strLit "STM32", strLit "HAL"] [strLit "course"] := by decide
  exact ⟨_, hmem, filter_scored_invariant _ _ _ _ hmem⟩

/-- C2: if some exclude keyword occurs (case-insensitively) in the
concatenation of a repo's name, description and topics, then no item of the
filter's output is a copy of that repo (its score-stripped record appears
nowhere), no matter how many required keywords the repo matches. -/
theorem filter_exclusion_dominant (repos : List Repo)
    (required_keywords exclude_keywords : List Str) (r s : Repo)
    (hex : shouldExclude exclude_keywords r = true)
    (hs : s ∈ filter_embedded_systems_repos repos required_keywords exclude_keywords) :
    stripScore s ≠ stripScore r := by
  obtain ⟨r2, _hr2, hsc⟩ := mem_filter_embedded.mp hs
  obtain ⟨hex2, _hpos, hs_eq⟩ := scoreRepo_eq_some hsc
  subst hs_eq
  intro hcontra
  have hsame : shouldExclude exclude_keywords (stripScore r2)
      = shouldExclude exclude_keywords (stripScore r) := by
    rw [show stripScore r2 = stripScore r from hcontra]
  have h2 : shouldExclude exclude_keywords (stripScore r2) = false := hex2
  have h3 : shouldExclude exclude_keywords (stripScore r) = true := hex
  rw [h2, h3] at hsame
  exact Bool.noConfusion hsame

theorem filter_exclusion_dominant_witness :
    shouldExclude [strLit "tutorial"]
        (Repo.mk (some (strLit "stm32-tutorial")) none none none
          (some [strLit "stm32", strLit "hal"]) none none) = true
    ∧ ∀ s, s ∈ filter_embedded_systems_repos
        [Repo.mk (some (strLit "stm32-tutorial")) none none none
          (some [strLit "stm32", strLit "hal"]) none none,
         Repo.mk (some (strLit "stm32-hal")) none none none
          (some [strLit "stm32", strLit "hal"]) none none]
        [strLit "STM32", strLit "HAL"] [strLit "tutorial"]
      → stripScore s ≠ stripScore
          (Repo.mk (some (strLit "stm32-tutorial")) none none none
            (some [strLit "stm32", strLit "hal"]) none none) := by
  refine ⟨by decide, fun s hs => ?_⟩
  exact filter_exclusion_dominant _ _ _ _ s (by decide) hs

/-- C3: a required keyword is recorded as matching an emitted item exactly
when, lower-cased, it is a substring of the item's lower-cased name, or a
substring of its lower-cased description, or equal to one of its lower-cased
topic tags (exact token membership, not substring). -/
theorem filter_match_iff (repos : List Repo)
    (required_keywords exclude_keywords : List Str) (s : Repo) (ks : List Str) (k : Str)
    (hs : s ∈ filter_embedded_systems_repos repos required_keywords exclude_keywords)
    (hks : s.matching_keywords = some ks) :
    k ∈ ks ↔ k ∈ required_keywords
      ∧ (isSubstrOf (lowerStr k) (nameText s) = true
         ∨ isSubstrOf (lowerStr k) (descText s) = true
         ∨ lowerStr k ∈ topicsText s) := by
  obtain ⟨n, ks2, _hc, hk2, _, _, hfil, _⟩ := filter_scored_invariant _ _ _ _ hs
  rw [hks] at hk2
  obtain rfl : ks = ks2 := Option.some_inj.mp hk2
  rw [hfil, List.mem_filter]
  simp only [keyword_matched, Bool.or_eq_true, List.elem_iff]
  tauto

theorem filter_match_iff_witness :
    (strLit "STM32" ∈ [strLit "STM32", strLit "HAL"]
      ↔ strLit "STM32" ∈ [strLit "STM32", strLit "HAL"]
        ∧ (isSubstrOf (lowerStr (strLit "STM32"))
              (nameText (Repo.mk (some (strLit "stm32-hal")) none
                (some (some (strLit "HAL for STM32"))) none
                (some [strLit "stm32", strLit "hal"]) (some 2)
                (some [strLit "STM32", strLit "HAL"]))) = true
           ∨ isSubstrOf (lowerStr (strLit "STM32"))
              (descText (Repo.mk (some (strLit "stm32-hal")) none
                (some (some (strLit "HAL for STM32"))) none
                (some [strLit "stm32", strLit "hal"]) (some 2)
                (some [strLit "STM32", strLit "HAL"]))) = true
           ∨ lowerStr (strLit "STM32") ∈ topicsText (Repo.mk (some (strLit "stm32-hal")) none
                (some (some (strLit "HAL for STM32"))) none
                (some [strLit "stm32", strLit "hal"]) (some 2)
                (some [strLit "STM32", strLit "HAL"])))) := by
  have hmem : (Repo.mk (some (strLit "stm32-hal")) none
        (some (some (strLit "HAL for STM32"))) none
        (some [strLit "stm32", strLit "hal"]) (some 2)
        (some [strLit "STM32", strLit "HAL"]))
      ∈ filter_embedded_systems_repos
        [Repo.mk (some (strLit "stm32-hal")) none (some (some (strLit "HAL for STM32")))
          none (some [strLit "stm32", strLit "hal"]) none none]
        [strLit "STM32", strLit "HAL"] [strLit "course"] := by decide
  exact filter_match_iff _ _ _ _ [strLit "STM32", strLit "HAL"] _ hmem rfl

/-! ## Normalization lemmas for the filter's optional inputs (C10) -/

theorem nameText_normalize (r : Repo) : nameText (normalizeRepo r) = nameText r := rfl

theorem topicsText_normalize (r : Repo) :
    topicsText (normalizeRepo r) = topicsText r := rfl

theorem descText_normalize (r : Repo) : descText (normalizeRepo r) = descText r := by
  rcases r with ⟨_, _, d, _, _, _, _⟩
  rcases d with _ | (_ | s) <;> rfl

theorem allText_normalize (r : Repo) : allText (normalizeRepo r) = allText r := by
  unfold allText
  rw [nameText_normalize, descText_normalize, topicsText_normalize]

theorem shouldExclude_normalize (exc : List Str) (r : Repo) :
    shouldExclude exc (normalizeRepo r) = shouldExclude exc r := by
  unfold shouldExclude
  rw [allText_normalize]

theorem keyword_matched_normalize (r : Repo) :
    keyword_matched (normalizeRepo r) = keyword_matched r := by
  funext k
  unfold keyword_matched
  rw [nameText_normalize, descText_normalize, topicsText_normalize]

theorem countMatches_normalize (req : List Str) (r : Repo) :
    countMatches req (normalizeRepo r) = countMatches req r := by
  unfold countMatches
  rw [keyword_matched_normalize]

theorem scoreRepo_normalize (req exc : List Str) (r : Repo) :
    scoreRepo req exc (normalizeRepo r) = (scoreRepo req exc r).map normalizeRepo := by
  simp only [scoreRepo, shouldExclude_normalize, countMatches_normalize]
  split_ifs with h1 h2 <;> rfl

theorem orderedInsert_map_normalize (a : Repo) (l : List Repo) :
    (l.map normalizeRepo).orderedInsert
      (fun a b => b.keyword_match_count.getD 0 ≤ a.keyword_match_count.getD 0)
      (normalizeRepo a)
    = (l.orderedInsert
        (fun a b => b.keyword_match_count.getD 0 ≤ a.keyword_match_count.getD 0)
        a).map normalizeRepo := by
  induction l with
  | nil => rfl
  | cons b t ih =>
    simp only [List.map_cons, List.orderedInsert]
    by_cases h : b.keyword_match_count.getD 0 ≤ a.keyword_match_count.getD 0
    · have h2 : (normalizeRepo b).keyword_match_count.getD 0
          ≤ (normalizeRepo a).keyword_match_count.getD 0 := h
      rw [if_pos h2, if_pos h, List.map_cons, List.map_cons]
    · have h2 : ¬ (normalizeRepo b).keyword_match_count.getD 0
          ≤ (normalizeRepo a).keyword_match_count.getD 0 := h
      rw [if_neg h2, if_neg h, List.map_cons, ih]

theorem insertionSort_map_normalize (l : List Repo) :
    (l.map normalizeRepo).insertionSort
      (fun a b => b.keyword_match_count.getD 0 ≤ a.keyword_match_count.getD 0)
    = (l.insertionSort
        (fun a b => b.keyword_match_count.getD 0 ≤ a.keyword_match_count.getD 0)).map
        normalizeRepo := by
  induction l with
  | nil => rfl
  | cons a t ih =>
    simp only [List.map_cons, List.insertionSort]
    rw [ih, orderedInsert_map_normalize]

/-- C10: the keyword filter is total on records with missing or null fields,
and treats them exactly as if the missing field were empty: pre-filling an
absent name with `""`, an absent-or-null description with `""` and absent
topics with `[]` (`normalizeRepo`, the defaults of `repo.get(...)` in the
code) changes nothing about which items survive, their score, their matched
keywords or their order — a missing field contributes no keyword matches of
its own.  (Totality — "never raises" — is inherent: the embedding of the
filter is a total function on `Repo`, mirroring the `.get` defaults at
lines 119–124 of crawler.py.) -/
theorem filter_total_on_missing_fields (repos : List Repo)
    (required_keywords exclude_keywords : List Str) :
    filter_embedded_systems_repos (repos.map normalizeRepo)
        required_keywords exclude_keywords
      = (filter_embedded_systems_repos repos required_keywords exclude_keywords).map
          normalizeRepo := by
  unfold filter_embedded_systems_repos
  rw [List.filterMap_map]
  have hfun : scoreRepo required_keywords exclude_keywords ∘ normalizeRepo
      = fun r => (scoreRepo required_keywords exclude_keywords r).map normalizeRepo :=
    funext fun r => scoreRepo_normalize required_keywords exclude_keywords r
  rw [hfun, ← List.map_filterMap]
  exact insertionSort_map_normalize _

/-! ## Helper lemmas on prefixes -/

theorem isPrefixOf_append_of_isPrefixOf (s t u : Str) (h : s.isPrefixOf t = true) :
    s.isPrefixOf (t ++ u) = true := by
  rw [List.isPrefixOf_iff_prefix] at h ⊢
  exact h.trans (t.prefix_append u)

theorem not_yes_prefix_of_no_prefix (l : Str)
    (h : (strLit "no").isPrefixOf l = true) :
    (strLit "yes").isPrefixOf l = false := by
  cases l with
  | nil => exact absurd h (by decide)
  | cons c rest =>
    have hc : c = 'n' := by
      have h2 : ('n' == c && (strLit "o").isPrefixOf rest) = true := h
      have h3 := (Bool.and_eq_true _ _).mp h2
      exact (beq_iff_eq.mp h3.1).symm
    subst hc
    show (('y' == 'n') && _) = false
    rfl

/-- C4: with neither backend available, `analyze_repo` is total and always
produces a "Yes" (Suitable) verdict, never a "No": the stronger
`multiple keywords matched` justification when the item's match count is at
least 2, the weaker `pre-filtered repo` justification otherwise. -/
theorem no_backend_fallback_total (st : AnalyzerState) (f g : Repo → Str) (r : Repo)
    (h1 : st.ollama_available = false) (h2 : st.gemini_available = false) :
    (strLit "Yes").isPrefixOf (analyze_repo st f g r) = true
    ∧ (strLit "No").isPrefixOf (analyze_repo st f g r) = false
    ∧ (2 ≤ r.keyword_match_count.getD 0 →
        analyze_repo st f g r = strLit "Yes (fallback - multiple keywords matched)")
    ∧ (r.keyword_match_count.getD 0 < 2 →
        analyze_repo st f g r = strLit "Yes (fallback - pre-filtered repo)") := by
  unfold analyze_repo
  rw [h1, h2]
  simp only [Bool.and_false, Bool.false_eq_true, if_false]
  by_cases hm : 2 ≤ r.keyword_match_count.getD 0
  · rw [if_pos hm]
    exact ⟨by decide, by decide, fun _ => rfl, fun hc => absurd hm (by omega)⟩
  · rw [if_neg hm]
    exact ⟨by decide, by decide, fun hc => absurd hc hm, fun _ => rfl⟩

theorem no_backend_fallback_total_witness :
    analyze_repo (AnalyzerState.mk true false false) (fun _ => []) (fun _ => [])
        (Repo.mk none none none none none (some 2) none)
      = strLit "Yes (fallback - multiple keywords matched)"
    ∧ analyze_repo (AnalyzerState.mk true false false) (fun _ => []) (fun _ => [])
        (Repo.mk none none none none none (some 1) none)
      = strLit "Yes (fallback - pre-filtered repo)" :=
  ⟨(no_backend_fallback_total (AnalyzerState.mk true false false) (fun _ => [])
      (fun _ => []) (Repo.mk none none none none none (some 2) none) rfl rfl).2.2.1
      (by decide),
   (no_backend_fallback_total (AnalyzerState.mk true false false) (fun _ => [])
      (fun _ => []) (Repo.mk none none none none none (some 1) none) rfl rfl).2.2.2
      (by decide)⟩

/-- C5 (the code, at the claimed failing input): with the Ollama backend
selected and available, if all three attempts of the retry loop come back
with a non-success transport status (here 500) and no exception, the loop
falls through without returning and `analyze_repo_with_ollama` returns
`None` — no verdict at all, contradicting both the claim and the function's
own docstring ("Returns: str: ...").  An exception-laden final attempt, by
contrast, re-raises into the outer handler which converts it to a fallback
verdict. -/
theorem ollama_three_failures_returns_none :
    analyze_repo_with_ollama (AnalyzerState.mk true true false)
        (Repo.mk (some (strLit "stm32-hal")) none none (some (strLit "C")) none
          (some 2) none)
        [OAttempt.status 500 [], OAttempt.status 500 [], OAttempt.status 500 []]
      = none
    ∧ analyze_repo_with_ollama (AnalyzerState.mk true true false)
        (Repo.mk (some (strLit "stm32-hal")) none none (some (strLit "C")) none
          (some 2) none)
        [OAttempt.exn, OAttempt.exn, OAttempt.exn]
      = some (strLit "Yes (fallback - contains c code for embedded systems)") := by
  constructor <;> decide

/-- C7, counterexample: when both rate-limit headers are absent, the stored
remaining-call counter is NOT left unchanged — `int(headers.get(..., 0))`
resets it to 0 (here from 5 to 0). -/
theorem update_rate_limit_resets_remaining_counterexample :
    (update_rate_limit (RateLimitState.mk 5 100)
        (RateHeaders.mk none none)).rate_limit_remaining = 0
    ∧ ¬ (update_rate_limit (RateLimitState.mk 5 100)
        (RateHeaders.mk none none)).rate_limit_remaining = 5 := by decide

/-- C7 as amended: after a response, the remaining-call counter is set from
its header when present and reset to 0 (not left unchanged) when the header
is absent; the reset-epoch is set from its header when present and left
unchanged when the header is absent. -/
theorem update_rate_limit_amended (st : RateLimitState) (hd : RateHeaders) :
    (∀ n, hd.x_rate_limit_remaining = some n →
      (update_rate_limit st hd).rate_limit_remaining = n)
    ∧ (hd.x_rate_limit_remaining = none →
      (update_rate_limit st hd).rate_limit_remaining = 0)
    ∧ (∀ t, hd.x_rate_limit_reset = some t →
      (update_rate_limit st hd).rate_limit_reset = t)
    ∧ (hd.x_rate_limit_reset = none →
      (update_rate_limit st hd).rate_limit_reset = st.rate_limit_reset) := by
  refine ⟨?_, ?_, ?_, ?_⟩
  · intro n hn
    simp [update_rate_limit, hn]
  · intro hn
    simp [update_rate_limit, hn]
  · intro t ht
    simp [update_rate_limit, ht]
  · intro ht
    simp [update_rate_limit, ht]

theorem update_rate_limit_amended_witness :
    (update_rate_limit (RateLimitState.mk 5 100)
        (RateHeaders.mk none (some 7))).rate_limit_remaining = 0
    ∧ (update_rate_limit (RateLimitState.mk 5 100)
        (RateHeaders.mk (some 3) none)).rate_limit_reset = 100 :=
  ⟨(update_rate_limit_amended (RateLimitState.mk 5 100)
      (RateHeaders.mk none (some 7))).2.1 rfl,
   (update_rate_limit_amended (RateLimitState.mk 5 100)
      (RateHeaders.mk (some 3) none)).2.2.2 rfl⟩

theorem yes_prefix_contains (language : Str) :
    (strLit "Yes").isPrefixOf
      (strLit "Yes - Contains " ++ language
        ++ strLit " code and matches embedded keywords") = true :=
  isPrefixOf_append_of_isPrefixOf _ _ _
    (isPrefixOf_append_of_isPrefixOf _ _ _ (by decide))

theorem yes_prefix_matches_multiple (n : Nat) :
    (strLit "Yes").isPrefixOf
      (strLit "Yes - Matches multiple embedded keywords ("
        ++ natStr n ++ strLit ")") = true :=
  isPrefixOf_append_of_isPrefixOf _ _ _
    (isPrefixOf_append_of_isPrefixOf _ _ _ (by decide))

theorem no_dash_prefix (e : Str) :
    (strLit "No - ").isPrefixOf (strLit "No - " ++ e) = true :=
  isPrefixOf_append_of_isPrefixOf _ _ _ (by decide)

/-- C6: whenever the Ollama response parser classifies a model response as a
"No" (a "no"-prefixed response, or one matching the secondary
"not suitable"/"unsuitable" heuristic) and produces a verdict, that verdict
is flipped to a "Yes" exactly when the item's lower-cased language is in
`['c', 'c++', 'assembly']` with at least one keyword match, or the item has
at least two keyword matches; otherwise the "No - " verdict stands. -/
theorem ollama_no_override_policy (answer_text : Str) (repo : Repo) (v : Str)
    (hparse : parse_ollama_response answer_text repo = Except.ok v)
    (hno : parses_as_no answer_text = true) :
    (ollama_override repo = true → (strLit "Yes").isPrefixOf v = true)
    ∧ (ollama_override repo = false → (strLit "No - ").isPrefixOf v = true) := by
  by_cases hn : (strLit "no").isPrefixOf (lowerStr answer_text) = true
  · have hy : (strLit "yes").isPrefixOf (lowerStr answer_text) = false :=
      not_yes_prefix_of_no_prefix _ hn
    simp only [parse_ollama_response, hy, hn, Bool.false_eq_true, if_false, if_true] at hparse
    split at hparse
    · exact absurd hparse (by simp)
    · split at hparse
      · rename_i hc1
        refine ⟨fun _ => ?_, fun hov => ?_⟩
        · injection hparse with hv
          subst hv
          exact yes_prefix_contains _
        · rw [ollama_override] at hov
          simp [hc1] at hov
      · split at hparse
        · rename_i hc1 hc2
          refine ⟨fun _ => ?_, fun hov => ?_⟩
          · injection hparse with hv
            subst hv
            exact yes_prefix_matches_multiple _
          · rw [ollama_override] at hov
            simp [hc2] at hov
        · rename_i hc1 hc2
          have hov : ollama_override repo = false := by
            rw [ollama_override]
            simp [hc1, hc2]
          refine ⟨fun hov2 => absurd hov2 (by simp [hov]), fun _ => ?_⟩
          injection hparse with hv
          subst hv
          exact no_dash_prefix _
  · have hn2 : (strLit "no").isPrefixOf (lowerStr answer_text) = false :=
      Bool.eq_false_iff.mpr hn
    rw [parses_as_no, hn2] at hno
    simp only [Bool.false_or, Bool.and_eq_true, Bool.not_eq_true'] at hno
    obtain ⟨⟨hy, hsuit⟩, hnosuit⟩ := hno
    simp only [parse_ollama_response, hy, hn2, hsuit, hnosuit, Bool.false_eq_true,
      if_false, if_true] at hparse
    split at hparse
    · rename_i hc1
      refine ⟨fun _ => ?_, fun hov => ?_⟩
      · injection hparse with hv
        subst hv
        exact yes_prefix_contains _
      · rw [ollama_override] at hov
        simp [hc1] at hov
    · split at hparse
      · rename_i hc1 hc2
        refine ⟨fun _ => ?_, fun hov => ?_⟩
        · injection hparse with hv
          subst hv
          exact yes_prefix_matches_multiple _
        · rw [ollama_override] at hov
          simp [hc2] at hov
      · rename_i hc1 hc2
        have hov : ollama_override repo = false := by
          rw [ollama_override]
          simp [hc1, hc2]
        refine ⟨fun hov2 => absurd hov2 (by simp [hov]), fun _ => ?_⟩
        injection hparse with hv
        subst hv
        exact no_dash_prefix _

theorem ollama_no_override_policy_witness :
    ollama_override (Repo.mk none none none (some (strLit "C")) none (some 1) none) = true
    ∧ (strLit "Yes").isPrefixOf
        (strLit "Yes - Contains " ++ lowerStr (strLit "C")
          ++ strLit " code and matches embedded keywords") = true := by
  have hparse : parse_ollama_response (strLit "No - docs only")
      (Repo.mk none none none (some (strLit "C")) none (some 1) none)
      = Except.ok (strLit "Yes - Contains " ++ lowerStr (strLit "C")
          ++ strLit " code and matches embedded keywords") := by rfl
  exact ⟨by decide,
    (ollama_no_override_policy (strLit "No - docs only")
      (Repo.mk none none none (some (strLit "C")) none (some 1) none)
      _ hparse (by decide)).1 (by decide)⟩

/-! ## Lemmas about pagination (C8) -/

theorem search_repos_go_full_step {α : Type} (resp : Nat → PageResp α)
    (page fuel : Nat) (acc : List α) (h : isFullPage resp page = true) :
    search_repos_go resp page (fuel + 1) acc
      = search_repos_go resp (page + 1) fuel (acc ++ pageItems resp page) := by
  rw [isFullPage] at h
  cases hr : resp page with
  | failure => rw [hr] at h; cases h
  | noItems => rw [hr] at h; cases h
  | items l =>
    rw [hr] at h
    have hlen : 100 ≤ l.length := of_decide_eq_true h
    simp only [search_repos_go, hr, pageItems]
    rw [if_neg (by omega), if_neg (by omega)]

theorem concatPages_succ {α : Type} (resp : Nat → PageResp α) (start d : Nat) :
    concatPages resp start (d + 1)
      = pageItems resp start ++ concatPages resp (start + 1) d := by
  unfold concatPages
  rw [List.range'_succ]
  simp

theorem concatPages_append_last {α : Type} (resp : Nat → PageResp α) :
    ∀ (d start : Nat), concatPages resp start (d + 1)
      = concatPages resp start d ++ pageItems resp (start + d) := by
  intro d
  induction d with
  | zero =>
    intro start
    simp [concatPages, List.range'_one]
  | succ d ih =>
    intro start
    rw [concatPages_succ resp start (d + 1), ih (start + 1),
      concatPages_succ resp start d, List.append_assoc]
    have e1 : start + 1 + d = start + (d + 1) := by omega
    rw [e1]

theorem search_repos_go_chain {α : Type} (resp : Nat → PageResp α) :
    ∀ (d page fuel : Nat) (acc : List α), d ≤ fuel →
    (∀ i, page ≤ i → i < page + d → isFullPage resp i = true) →
    search_repos_go resp page fuel acc
      = search_repos_go resp (page + d) (fuel - d) (acc ++ concatPages resp page d) := by
  intro d
  induction d with
  | zero =>
    intro page fuel acc _ _
    simp [concatPages]
  | succ d ih =>
    intro page fuel acc hd hfull
    have hf : isFullPage resp page = true := hfull page le_rfl (by omega)
    obtain ⟨f, rfl⟩ : ∃ f, fuel = f + 1 := ⟨fuel - 1, by omega⟩
    rw [search_repos_go_full_step resp page f acc hf]
    rw [ih (page + 1) f (acc ++ pageItems resp page) (by omega)
      (fun i hi1 hi2 => hfull i (by omega) (by omega))]
    have e1 : page + 1 + d = page + (d + 1) := by omega
    have e2 : f - d = f + 1 - (d + 1) := by omega
    rw [e1, e2, concatPages_succ, ← List.append_assoc]

/-- C8: `search_repos` returns the concatenation, in page order, of the item
lists of the pages it fetched, and stops at the first of: a failed request
(`None` from `_make_request`, covering network errors, rate-limited 403s and
other error statuses) or an item-less response, an empty item list, an item
list shorter than the full page size 100, or `max_pages` pages.  In
particular a single-page failure at page `j` yields all items of pages
`1 .. j-1` instead of raising or discarding them. -/
theorem search_repos_pagination {α : Type} (resp : Nat → PageResp α)
    (max_pages j : Nat) (h1 : 1 ≤ j) (h2 : j ≤ max_pages)
    (hfull : ∀ i, 1 ≤ i → i < j → isFullPage resp i = true) :
    (resp j = PageResp.failure ∨ resp j = PageResp.noItems
        ∨ resp j = PageResp.items [] →
      search_repos resp max_pages = concatPages resp 1 (j - 1))
    ∧ (∀ l, resp j = PageResp.items l → l.length ≠ 0 → l.length < 100 →
      search_repos resp max_pages = concatPages resp 1 (j - 1) ++ l)
    ∧ (j = max_pages → isFullPage resp j = true →
      search_repos resp max_pages = concatPages resp 1 max_pages) := by
  have hchain := search_repos_go_chain resp (j - 1) 1 max_pages [] (by omega)
    (fun i hi1 hi2 => hfull i hi1 (by omega))
  rw [search_repos, hchain, List.nil_append]
  have hj : 1 + (j - 1) = j := by omega
  obtain ⟨f, hfuel⟩ : ∃ f, max_pages - (j - 1) = f + 1 := ⟨max_pages - j, by omega⟩
  rw [hj, hfuel]
  refine ⟨?_, ?_, ?_⟩
  · intro hstop
    rcases hstop with h | h | h <;> simp [search_repos_go, h]
  · intro l hl hne hlt
    simp only [search_repos_go, hl]
    rw [if_neg hne, if_pos hlt]
  · intro hjm hfj
    subst hjm
    have hf0 : f = 0 := by omega
    subst hf0
    rw [search_repos_go_full_step resp j 0 _ hfj]
    simp only [search_repos_go]
    obtain ⟨d, hd⟩ : ∃ d, j = d + 1 := ⟨j - 1, by omega⟩
    subst hd
    have e1 : d + 1 - 1 = d := by omega
    have e2 : 1 + d = d + 1 := by omega
    rw [e1, concatPages_append_last resp d 1, e2]

theorem search_repos_pagination_witness :
    search_repos c8PageOracle 3 = concatPages c8PageOracle 1 1 ++ [5] :=
  (search_repos_pagination c8PageOracle 3 2 (by omega) (by omega)
    (fun i hi1 hi2 => by
      have hi : i = 1 := by omega
      subst hi
      decide)).2.1 [5] (by decide) (by decide) (by decide)

/-! ## Lemmas about deduplication (C9) -/

theorem dedup_go_sublist (seen : List (Option Str)) (l : List Repo) :
    List.Sublist (dedup_go seen l) l := by
  induction l generalizing seen with
  | nil => simp [dedup_go]
  | cons a rest ih =>
    rw [dedup_go]
    split_ifs with h
    · exact (ih seen).trans (List.sublist_cons_self a rest)
    · exact (ih _).cons₂ a

theorem mem_dedup_go (seen : List (Option Str)) (l : List Repo) (r : Repo) :
    r ∈ dedup_go seen l
      ↔ r.full_name ∉ seen
        ∧ ∃ l1 l2, l = l1 ++ r :: l2 ∧ r.full_name ∉ l1.map Repo.full_name := by
  induction l generalizing seen with
  | nil => simp [dedup_go]
  | cons a rest ih =>
    rw [dedup_go]
    split_ifs with h
    · rw [ih]
      constructor
      · rintro ⟨hs, l1, l2, rfl, hnot⟩
        refine ⟨hs, a :: l1, l2, rfl, ?_⟩
        simp only [List.map_cons, List.mem_cons, not_or]
        exact ⟨fun hc => hs (hc ▸ h), hnot⟩
      · rintro ⟨hs, l1, l2, heq, hnot⟩
        cases l1 with
        | nil =>
          simp only [List.nil_append, List.cons.injEq] at heq
          exact absurd (heq.1 ▸ h) hs
        | cons b l1' =>
          simp only [List.cons_append, List.cons.injEq] at heq
          obtain ⟨rfl, rfl⟩ := heq
          simp only [List.map_cons, List.mem_cons, not_or] at hnot
          exact ⟨hs, l1', l2, rfl, hnot.2⟩
    · rw [List.mem_cons, ih]
      constructor
      · rintro (rfl | ⟨hs, l1, l2, rfl, hnot⟩)
        · exact ⟨h, [], rest, rfl, by simp⟩
        · simp only [List.mem_cons, not_or] at hs
          refine ⟨hs.2, a :: l1, l2, rfl, ?_⟩
          simp only [List.map_cons, List.mem_cons, not_or]
          exact ⟨hs.1, hnot⟩
      · rintro ⟨hs, l1, l2, heq, hnot⟩
        cases l1 with
        | nil =>
          simp only [List.nil_append, List.cons.injEq] at heq
          exact Or.inl heq.1.symm
        | cons b l1' =>
          simp only [List.cons_append, List.cons.injEq] at heq
          obtain ⟨rfl, rfl⟩ := heq
          simp only [List.map_cons, List.mem_cons, not_or] at hnot
          refine Or.inr ⟨?_, l1', l2, rfl, hnot.2⟩
          simp only [List.mem_cons, not_or]
          exact ⟨hnot.1, hs⟩
  
theorem dedup_go_keys_nodup (seen : List (Option Str)) (l : List Repo) :
    ((dedup_go seen l).map Repo.full_name).Nodup
    ∧ ∀ r, r ∈ dedup_go seen l → r.full_name ∉ seen := by
  induction l generalizing seen with
  | nil => simp [dedup_go]
  | cons a rest ih =>
    rw [dedup_go]
    split_ifs with h
    · exact ih seen
    · refine ⟨?_, ?_⟩
      · simp only [List.map_cons, List.nodup_cons]
        refine ⟨?_, (ih (a.full_name :: seen)).1⟩
        intro hc
        obtain ⟨r, hr, hkey⟩ := List.mem_map.mp hc
        exact absurd (List.mem_cons_self _ _) (hkey ▸ (ih (a.full_name :: seen)).2 r hr)
      · intro r hr
        rcases List.mem_cons.mp hr with rfl | hr2
        · exact h
        · have := (ih (a.full_name :: seen)).2 r hr2
          simp only [List.mem_cons, not_or] at this
          exact this.2

theorem dedup_go_congr (l : List Repo) :
    ∀ (seen1 seen2 : List (Option Str)), (∀ k, k ∈ seen1 ↔ k ∈ seen2) →
    dedup_go seen1 l = dedup_go seen2 l := by
  induction l with
  | nil => intro _ _ _; rfl
  | cons a rest ih =>
    intro seen1 seen2 h
    rw [dedup_go, dedup_go]
    by_cases ha : a.full_name ∈ seen1
    · rw [if_pos ha, if_pos ((h _).mp ha)]
      exact ih _ _ h
    · rw [if_neg ha, if_neg (fun hc => ha ((h _).mpr hc))]
      exact congrArg (List.cons a)
        (ih (a.full_name :: seen1) (a.full_name :: seen2)
          (fun k => by rw [List.mem_cons, List.mem_cons, h k]))

theorem dedup_go_append (l1 : List Repo) :
    ∀ (seen : List (Option Str)) (l2 : List Repo),
    dedup_go seen (l1 ++ l2)
      = dedup_go seen l1 ++ dedup_go (l1.map Repo.full_name ++ seen) l2 := by
  induction l1 with
  | nil => intro seen l2; simp [dedup_go]
  | cons a rest ih =>
    intro seen l2
    simp only [List.cons_append, List.append_eq, dedup_go]
    split_ifs with h
    · rw [ih]
      congr 1
      apply dedup_go_congr
      intro k
      simp only [List.map_cons, List.cons_append, List.mem_cons, List.mem_append]
      constructor
      · tauto
      · rintro (rfl | hk | hk)
        · exact Or.inr h
        · exact Or.inl hk
        · exact Or.inr hk
    · rw [ih, List.cons_append]
      congr 2
      apply dedup_go_congr
      intro k
      simp only [List.map_cons, List.cons_append, List.mem_cons, List.mem_append]
      tauto

theorem dedup_go_eq_nil (l : List Repo) :
    ∀ (seen : List (Option Str)), (∀ r, r ∈ l → r.full_name ∈ seen) →
    dedup_go seen l = [] := by
  induction l with
  | nil => intro _ _; rfl
  | cons a rest ih =>
    intro seen h
    rw [dedup_go, if_pos (h a (List.mem_cons_self _ _))]
    exact ih seen (fun r hr => h r (List.mem_cons_of_mem _ hr))

/-- C9: the `full_name` deduplication of `run_crawler` keeps, for every
identity key, exactly the first occurrence in arrival order: an item is in
the output iff it is the first item of the input carrying its `full_name`
(so the first item's metadata is preserved and later duplicates are
discarded); output keys are pairwise distinct; the output is a sublist of
the input (arrival order); and merging the same list twice deduplicates to
the same result as merging it once. -/
theorem dedup_first_occurrence (all_repos : List Repo) :
    (∀ r, r ∈ dedup_repos all_repos
      ↔ ∃ l1 l2, all_repos = l1 ++ r :: l2
          ∧ r.full_name ∉ l1.map Repo.full_name)
    ∧ ((dedup_repos all_repos).map Repo.full_name).Nodup
    ∧ List.Sublist (dedup_repos all_repos) all_repos
    ∧ dedup_repos (all_repos ++ all_repos) = dedup_repos all_repos := by
  refine ⟨?_, (dedup_go_keys_nodup [] all_repos).1, dedup_go_sublist [] all_repos, ?_⟩
  · intro r
    rw [dedup_repos, mem_dedup_go]
    simp
  · have hnil : dedup_go (List.map Repo.full_name all_repos ++ []) all_repos = [] := by
      apply dedup_go_eq_nil
      intro r hr
      simp only [List.append_nil]
      exact List.mem_map.mpr ⟨r, hr, rfl⟩
    rw [dedup_repos, dedup_repos, dedup_go_append, hnil, List.append_nil]

theorem dedup_first_occurrence_witness :
    dedup_repos
        ([Repo.mk none (some (strLit "org/a")) none none none none none,
          Repo.mk none (some (strLit "org/a")) (some (some (strLit "other"))) none
            none none none]
          ++ [Repo.mk none (some (strLit "org/a")) none none none none none,
              Repo.mk none (some (strLit "org/a")) (some (some (strLit "other"))) none
                none none none])
      = dedup_repos
          [Repo.mk none (some (strLit "org/a")) none none none none none,
           Repo.mk none (some (strLit "org/a")) (some (some (strLit "other"))) none
             none none none] :=
  (dedup_first_occurrence
    [Repo.mk none (some (strLit "org/a")) none none none none none,
     Repo.mk none (some (strLit "org/a")) (some (some (strLit "other"))) none
       none none none]).2.2.2
